import Mathlib

/-!
Verification of the selector classification-and-normalization engine of
`selenium_selector_parser` (files `utils.py` and `validators.py`).

The Python code is shallowly embedded: strings are modelled as `String` /
`List Char`, fallible Python code (code that can raise) returns `Except`,
and the two external grammar checkers (`lxml.etree.XPath` and
`cssselect.parse`) are passed in as black-box parameters, exactly as the
design treats them ("black-box validators returning success/failure plus a
diagnostic string").  The external CSS tokenizer `tinycss2` is modelled by
an executable fragment of the CSS Syntax component-value parser it
implements (see `toksF` below).
-/

deriving instance DecidableEq for Except

namespace SSP

/-- Whitespace characters as recognised by Python's `str.split()` /
`str.strip()` and by the `\s` class of the `re` module (ASCII fragment). -/
def pyIsSpace (c : Char) : Bool :=
  c = ' ' ∨ c = '\t' ∨ c = '\n' ∨ c = '\r' ∨ c = '\x0b' ∨ c = '\x0c'

/-- Core of `" ".join(s.split())`: compress every whitespace run to a single
space and drop a trailing run; a leading run becomes one leading space,
removed by `collapse` below. -/
def ccore : List Char → List Char
  | [] => []
  | c :: cs =>
    if pyIsSpace c then
      if (ccore cs).head? = some ' ' then ccore cs
      else if ccore cs = [] then []
      else ' ' :: ccore cs
    else c :: ccore cs

/-- Model of the Python expression `" ".join(selector.split())` used at the
top of `normalize_selector`. -/
def collapse (l : List Char) : List Char :=
  if (ccore l).head? = some ' ' then (ccore l).tail else ccore l

/-- Canonical whitespace form: every whitespace character is a plain space,
no two spaces are adjacent, and the list does not end with a space.  This
is the invariant of `collapse` outputs (which additionally do not start
with a space). -/
def Canon (l : List Char) : Prop :=
  (∀ c ∈ l, pyIsSpace c = true → c = ' ') ∧
    l.Chain' (fun a b => ¬(a = ' ' ∧ b = ' ')) ∧ l.getLast? ≠ some ' '

/-- Model of Python `str.strip()`. -/
def pyStripL (l : List Char) : List Char :=
  ((l.dropWhile pyIsSpace).reverse.dropWhile pyIsSpace).reverse

/-- Model of Python `str.split(sep)` for a one-character separator (used as
`xpath_selector.split("[")`); like Python it returns at least one chunk and
keeps empty chunks. -/
def splitOnC (sep : Char) : List Char → List (List Char)
  | [] => [[]]
  | c :: cs =>
    if c = sep then [] :: splitOnC sep cs
    else
      match splitOnC sep cs with
      | [] => [[c]]
      | h :: t => (c :: h) :: t

/-- Model of Python `sep.join(chunks)`. -/
def pyJoinSep (sep : List Char) : List (List Char) → List Char
  | [] => []
  | [x] => x
  | x :: xs => x ++ sep ++ pyJoinSep sep xs

/-- Embedding of `_normalize_xpath` (utils.py lines 203-212): split on `'['`,
strip the base segment, and rejoin the predicate segments with `"]["`. -/
def normXpath (l : List Char) : List Char :=
  match splitOnC '[' l with
  | [] => pyStripL l
  | [_] => pyStripL l
  | p :: ps => pyStripL p ++ '[' :: pyJoinSep [']', '['] (ps.map pyStripL)

/-! ## Model of the tinycss2 tokenizer

`_normalize_css` calls `tinycss2.parse_component_value_list`, which
implements the "consume a component value" algorithm of the CSS Syntax
specification: `[...]`, `(...)`, `{...}` and `name(...)` become single
nested block objects (their `.type` strings are `"[] block"`, `"() block"`,
`"{} block"`, `"function"`), unmatched closing brackets become literal
tokens, number and dimension tokens carry a *numeric* `.value` together
with a textual `.representation`, and `serialize()` reprints a token (for a
block, its bracket pair around the serialization of its content).  The
executable model below covers this algorithm for the fragment exercised
here (no escape sequences, `url()`, or unicode-range tokens). -/

/-- The whitespace set of the CSS tokenizer (after its `\r`/`\f`
preprocessing). -/
def cssIsWs (c : Char) : Bool :=
  c = ' ' ∨ c = '\t' ∨ c = '\n' ∨ c = '\r' ∨ c = '\x0c'

/-- CSS name-start code point (ASCII letters, `_`, non-ASCII). -/
def isNameStart (c : Char) : Bool :=
  c.isAlpha ∨ c = '_' ∨ c.toNat ≥ 0x80

/-- CSS name code point. -/
def isNameChar (c : Char) : Bool :=
  isNameStart c ∨ c.isDigit ∨ c = '-'

/-- Does the first character of the list satisfy `p`? -/
def headSat (p : Char → Bool) (l : List Char) : Bool :=
  match l with
  | d :: _ => p d
  | [] => false

/-- Would an identifier start at this position? (fragment: no escapes). -/
def identStartAt : List Char → Bool
  | [] => false
  | c :: rest =>
    if isNameStart c then true
    else if c = '-' then
      match rest with
      | d :: _ => isNameStart d ∨ d = '-'
      | [] => false
    else false

/-- Would a number start at this position? (mirrors the `_NUMBER_RE` check of
the tokenizer). -/
def numberStartAt : List Char → Bool
  | [] => false
  | c :: rest =>
    if c.isDigit then true
    else if c = '.' then
      match rest with
      | d :: _ => d.isDigit
      | [] => false
    else if c = '+' ∨ c = '-' then
      match rest with
      | d :: ds =>
        if d.isDigit then true
        else if d = '.' then
          match ds with
          | e :: _ => e.isDigit
          | [] => false
        else false
      | [] => false
    else false

/-- Consume the text matched by `[-+]?([0-9]*\.)?[0-9]+([eE][+-]?[0-9]+)?`;
returns the representation and the rest of the input. -/
def numConsume (l : List Char) : List Char × List Char :=
  let signLen : Nat :=
    match l with
    | c :: _ => if c = '+' ∨ c = '-' then 1 else 0
    | [] => 0
  let sign := l.take signLen
  let r1 := l.drop signLen
  let ip := r1.takeWhile Char.isDigit
  let r2 := r1.drop ip.length
  let fracPair : List Char × List Char :=
    match r2 with
    | '.' :: r =>
      let ds := r.takeWhile Char.isDigit
      if ds = [] then ([], r2) else ('.' :: ds, r.drop ds.length)
    | _ => ([], r2)
  let fp := fracPair.1
  let r3 := fracPair.2
  let expPair : List Char × List Char :=
    match r3 with
    | e :: r =>
      if e = 'e' ∨ e = 'E' then
        match r with
        | s :: r4 =>
          if s = '+' ∨ s = '-' then
            let ds := r4.takeWhile Char.isDigit
            if ds = [] then ([], r3) else (e :: s :: ds, r4.drop ds.length)
          else
            let ds := r.takeWhile Char.isDigit
            if ds = [] then ([], r3) else (e :: ds, r.drop ds.length)
        | [] => ([], r3)
      else ([], r3)
    | [] => ([], r3)
  (sign ++ ip ++ fp ++ expPair.1, expPair.2)

/-- Consume a quoted string after its opening quote `q`; a backslash escapes
the following character (fragment: no hex escapes).  The value is returned
unquoted, as `tinycss2` stores it in `StringToken.value`. -/
def strConsume (q : Char) : List Char → List Char × List Char
  | [] => ([], [])
  | c :: cs =>
    if c = q then ([], cs)
    else if c = '\\' then
      match cs with
      | d :: ds =>
        let p := strConsume q ds
        (d :: p.1, p.2)
      | [] => ([], [])
    else
      let p := strConsume q cs
      (c :: p.1, p.2)

/-- Consume a comment body after the opening `/*`, up to and including the
closing `*/`. -/
def commentConsume : List Char → List Char × List Char
  | [] => ([], [])
  | '*' :: '/' :: rest => ([], rest)
  | c :: cs =>
    let p := commentConsume cs
    (c :: p.1, p.2)

/-- Component values produced by the tokenizer model; constructors carry the
data the Python code reads off the corresponding `tinycss2` objects. -/
inductive CVal where
  | ws (v : String)
  | ident (v : String)
  | hash (v : String)
  | strTok (v : String)
  | numTok (r : String)
  | dim (r : String) (unit : String)
  | pct (r : String)
  | lit (v : String)
  | comment (v : String)
  | atKeyword (v : String)
  | sqBlock (content : List CVal)
  | parenBlock (content : List CVal)
  | curlyBlock (content : List CVal)
  | funcBlock (name : String) (args : List CVal)

/-- The `.type` string of each component value, as exposed by `tinycss2`. -/
def tokTypeStr : CVal → String
  | .ws _ => "whitespace"
  | .ident _ => "ident"
  | .hash _ => "hash"
  | .strTok _ => "string"
  | .numTok _ => "number"
  | .dim _ _ => "dimension"
  | .pct _ => "percentage"
  | .lit _ => "literal"
  | .comment _ => "comment"
  | .atKeyword _ => "at-keyword"
  | .sqBlock _ => "[] block"
  | .parenBlock _ => "() block"
  | .curlyBlock _ => "{} block"
  | .funcBlock _ _ => "function"

mutual

/-- Model of `tinycss2`'s per-token `serialize()`. -/
def serializeTok : CVal → String
  | .ws v => v
  | .ident v => v
  | .hash v => "#" ++ v
  | .strTok v => "\"" ++ v ++ "\""
  | .numTok r => r
  | .dim r u => r ++ u
  | .pct r => r ++ "%"
  | .lit v => v
  | .comment v => "/*" ++ v ++ "*/"
  | .atKeyword v => "@" ++ v
  | .sqBlock content => "[" ++ serializeToks content ++ "]"
  | .parenBlock content => "(" ++ serializeToks content ++ ")"
  | .curlyBlock content => "\x7b" ++ serializeToks content ++ "\x7d"
  | .funcBlock name args => name ++ "(" ++ serializeToks args ++ ")"

/-- Serialization of a token list (used for block contents). -/
def serializeToks : List CVal → String
  | [] => ""
  | t :: ts => serializeTok t ++ serializeToks ts

end

/-- The component-value parser, fuelled (a fuel of `input length + 1` always
suffices since every step consumes at least one character).  `stop` is the
closing bracket of the block currently being consumed; the second component
of the result is the yet-unconsumed rest of the input. -/
def toksF : Nat → Option Char → List Char → List CVal × List Char
  | 0, _, s => ([], s)
  | Nat.succ fuel, stop, s =>
    match s with
    | [] => ([], [])
    | c :: cs =>
      if stop = some c then ([], cs)
      else if cssIsWs c then
        let run := (c :: cs).takeWhile cssIsWs
        let p := toksF fuel stop ((c :: cs).dropWhile cssIsWs)
        (.ws ⟨run⟩ :: p.1, p.2)
      else if c = '"' ∨ c = '\'' then
        let q := strConsume c cs
        let p := toksF fuel stop q.2
        (.strTok ⟨q.1⟩ :: p.1, p.2)
      else if c = '#' ∧ headSat isNameChar cs then
        let run := cs.takeWhile isNameChar
        let p := toksF fuel stop (cs.drop run.length)
        (.hash ⟨run⟩ :: p.1, p.2)
      else if identStartAt (c :: cs) then
        let run := (c :: cs).takeWhile isNameChar
        match (c :: cs).drop run.length with
        | '(' :: r2 =>
          let inner := toksF fuel (some ')') r2
          let p := toksF fuel stop inner.2
          (.funcBlock ⟨run⟩ inner.1 :: p.1, p.2)
        | rest =>
          let p := toksF fuel stop rest
          (.ident ⟨run⟩ :: p.1, p.2)
      else if numberStartAt (c :: cs) then
        let q := numConsume (c :: cs)
        if identStartAt q.2 then
          let u := q.2.takeWhile isNameChar
          let p := toksF fuel stop (q.2.drop u.length)
          (.dim ⟨q.1⟩ ⟨u⟩ :: p.1, p.2)
        else
          match q.2 with
          | '%' :: r2 =>
            let p := toksF fuel stop r2
            (.pct ⟨q.1⟩ :: p.1, p.2)
          | rest =>
            let p := toksF fuel stop rest
            (.numTok ⟨q.1⟩ :: p.1, p.2)
      else if c = '@' ∧ identStartAt cs then
        let run := cs.takeWhile isNameChar
        let p := toksF fuel stop (cs.drop run.length)
        (.atKeyword ⟨run⟩ :: p.1, p.2)
      else if c = '/' ∧ headSat (fun d => d = '*') cs then
        let q := commentConsume (cs.drop 1)
        let p := toksF fuel stop q.2
        (.comment ⟨q.1⟩ :: p.1, p.2)
      else if c = '[' then
        let inner := toksF fuel (some ']') cs
        let p := toksF fuel stop inner.2
        (.sqBlock inner.1 :: p.1, p.2)
      else if c = '(' then
        let inner := toksF fuel (some ')') cs
        let p := toksF fuel stop inner.2
        (.parenBlock inner.1 :: p.1, p.2)
      else if c = '\x7b' then
        let inner := toksF fuel (some '\x7d') cs
        let p := toksF fuel stop inner.2
        (.curlyBlock inner.1 :: p.1, p.2)
      else
        let p := toksF fuel stop cs
        (.lit ⟨[c]⟩ :: p.1, p.2)

/-- Model of `tinycss2.parse_component_value_list`. -/
def tokenize (l : List Char) : List CVal :=
  (toksF (l.length + 1) none l).1

/-! ## Embedding of `_normalize_css` (utils.py lines 214-271) -/

/-- A Python value appended to `result_parts`: either a `str`, or the
numeric `.value` of a number/dimension token (any non-`str` makes the final
`"".join` raise `TypeError`). -/
inductive PyVal where
  | pstr (s : String)
  | nonStr

/-- Embedding of `_needs_descendant_space` (utils.py lines 273-285); note
that the set compares against the *type strings*, in which brackets never
occur (blocks have type `"[] block"`), so the `"]"`/`"["` members never
match. -/
def needsDescendantSpace (prev cur : CVal) : Bool :=
  (["ident", "hash", "dimension", "number", "string", "]"].contains (tokTypeStr prev)) &&
  (["ident", "hash", "dimension", "number", "string", "["].contains (tokTypeStr cur))

/-- What the loop body of `_normalize_css` appends for one non-whitespace
token: hash tokens as `#value`, string tokens as their unquoted value,
ident tokens as their text, number/dimension tokens as their *numeric*
`.value` (a non-`str`), and everything else via `serialize()`. -/
def cssPart : CVal → PyVal
  | .hash v => .pstr ("#" ++ v)
  | .strTok v => .pstr v
  | .ident v => .pstr v
  | .numTok _ => .nonStr
  | .dim _ _ => .nonStr
  | t => .pstr (serializeTok t)

/-- The token loop of `_normalize_css`: whitespace tokens are skipped (and
do not update `prev_token`); before every other token a single space is
inserted when `_needs_descendant_space(prev_token, token)` holds. -/
def buildParts : Option CVal → List CVal → List PyVal
  | _, [] => []
  | prev, t :: ts =>
    if tokTypeStr t = "whitespace" then buildParts prev ts
    else
      (match prev with
       | some p => if needsDescendantSpace p t then [PyVal.pstr " "] else []
       | none => []) ++ (cssPart t :: buildParts (some t) ts)

/-- Model of `"".join(result_parts)`: raises `TypeError` (here `Except.error`)
if any element is not a `str`. -/
def pyJoin : List PyVal → Except Unit String
  | [] => .ok ""
  | .pstr s :: rest => (pyJoin rest).map (fun r => s ++ r)
  | .nonStr :: _ => .error ()

/-- Character-level model of `re.sub(r"\s*X\s*", "X", s)` for a one-character
target class `X`: every whitespace character whose nearest non-whitespace
neighbour on the left or on the right is a target character is deleted.
`leftTgt` records whether the nearest non-whitespace character already
emitted is a target. -/
def scrubGo (tgt : Char → Bool) : Bool → List Char → List Char
  | _, [] => []
  | leftTgt, c :: cs =>
    if pyIsSpace c then
      if leftTgt ∨ headSat tgt (cs.dropWhile pyIsSpace) then
        scrubGo tgt leftTgt cs
      else c :: scrubGo tgt leftTgt cs
    else c :: scrubGo tgt (tgt c) cs

/-- Remove whitespace around every character satisfying `tgt`. -/
def scrub (tgt : Char → Bool) (l : List Char) : List Char :=
  scrubGo tgt false l

/-- Embedding of `_normalize_css`: tokenize, rebuild, join (possibly raising
`TypeError`), then the four `re.sub` whitespace cleanups and a final strip. -/
def normCssL (l : List Char) : Except Unit (List Char) :=
  (pyJoin (buildParts none (tokenize l))).map (fun j =>
    pyStripL (scrub (fun c => c = '>' ∨ c = '+' ∨ c = '~' ∨ c = ',')
      (scrub (fun c => c = '=')
        (scrub (fun c => c = ']')
          (scrub (fun c => c = '[') j.toList)))))

/-- Embedding of `normalize_selector` (utils.py lines 185-201) on `List Char`. -/
def normalizeSelectorL (l : List Char) : Except Unit (List Char) :=
  if l = [] then .ok []
  else if ['/', '/'].isPrefixOf (collapse l) ∨ ['/'].isPrefixOf (collapse l) then
    .ok (normXpath (collapse l))
  else normCssL (collapse l)

/-- Embedding of `normalize_selector`; `Except.error` is an uncaught Python
`TypeError` escaping `_normalize_css`. -/
def normalize_selector (s : String) : Except Unit String :=
  (normalizeSelectorL s.toList).map (fun l => ⟨l⟩)

/-! ## Embedding of `extract_selector_parts` (utils.py lines 39-76)

The extraction is driven by the fixed regexes of the source; each is
modelled by a direct left-to-right scan with the same match semantics
(`\w` is modelled as ASCII word characters). -/

/-- A character of the class `[\w-]`. -/
def isWordHy (c : Char) : Bool :=
  c.isAlphanum ∨ c = '_' ∨ c = '-'

/-- Model of `re.search(r"#([\w-]+)", s)`: the first `#` followed by at least
one word/hyphen character; returns the captured group or `""`. -/
def findId : List Char → String
  | [] => ""
  | c :: cs =>
    if c = '#' then
      let run := cs.takeWhile isWordHy
      if run = [] then findId cs else ⟨run⟩
    else findId cs

/-- Fuelled scan for `re.findall(r"\.([\w-]+)", s)`; every step consumes at
least one character, so a fuel of `input length + 1` always suffices. -/
def findClassesF : Nat → List Char → List String
  | 0, _ => []
  | _, [] => []
  | Nat.succ fuel, c :: cs =>
    if c = '.' then
      let run := cs.takeWhile isWordHy
      if run = [] then findClassesF fuel cs
      else ⟨run⟩ :: findClassesF fuel (cs.drop run.length)
    else findClassesF fuel cs

/-- Model of `re.findall(r"\.([\w-]+)", s)`. -/
def findClasses (l : List Char) : List String :=
  findClassesF (l.length + 1) l

/-- One attempt of the regex `\[([\w-]+(?:[~|^$*]?=[\w-]+)?)\]` just after a
`[`; returns the captured group and the number of characters consumed after
the `[`. -/
def attrMatch (cs : List Char) : Option (String × Nat) :=
  let w1 := cs.takeWhile isWordHy
  if w1 = [] then none
  else
    match cs.drop w1.length with
    | ']' :: _ => some (⟨w1⟩, w1.length + 1)
    | '=' :: r2 =>
      let w2 := r2.takeWhile isWordHy
      if w2 = [] then none
      else
        match r2.drop w2.length with
        | ']' :: _ => some (⟨w1 ++ '=' :: w2⟩, w1.length + 1 + w2.length + 1)
        | _ => none
    | op :: '=' :: r2 =>
      if op = '~' ∨ op = '|' ∨ op = '^' ∨ op = '$' ∨ op = '*' then
        let w2 := r2.takeWhile isWordHy
        if w2 = [] then none
        else
          match r2.drop w2.length with
          | ']' :: _ => some (⟨w1 ++ op :: '=' :: w2⟩, w1.length + 2 + w2.length + 1)
          | _ => none
      else none
    | _ => none

/-- Fuelled scan for `re.findall(r"\[([\w-]+(?:[~|^$*]?=[\w-]+)?)\]", s)`. -/
def findAttrsF : Nat → List Char → List String
  | 0, _ => []
  | _, [] => []
  | Nat.succ fuel, c :: cs =>
    if c = '[' then
      match attrMatch cs with
      | some (a, n) => a :: findAttrsF fuel (cs.drop n)
      | none => findAttrsF fuel cs
    else findAttrsF fuel cs

/-- Model of `re.findall(r"\[([\w-]+(?:[~|^$*]?=[\w-]+)?)\]", s)`. -/
def findAttrs (l : List Char) : List String :=
  findAttrsF (l.length + 1) l

/-- Fuelled scan for `re.findall(r":([\w-]+)(?:\([^)]*\))?", s)`; only the
name is captured, a well-parenthesised argument list is consumed but
discarded. -/
def findPseudoF : Nat → List Char → List String
  | 0, _ => []
  | _, [] => []
  | Nat.succ fuel, c :: cs =>
    if c = ':' then
      let run := cs.takeWhile isWordHy
      if run = [] then findPseudoF fuel cs
      else
        let n1 := run.length
        if headSat (fun d => d = '(') (cs.drop n1) then
          let inner := (cs.drop (n1 + 1)).takeWhile (fun d => ¬ d = ')')
          if headSat (fun d => d = ')') (cs.drop (n1 + 1 + inner.length)) then
            ⟨run⟩ :: findPseudoF fuel (cs.drop (n1 + 1 + inner.length + 1))
          else ⟨run⟩ :: findPseudoF fuel (cs.drop n1)
        else ⟨run⟩ :: findPseudoF fuel (cs.drop n1)
    else findPseudoF fuel cs

/-- Model of `re.findall(r":([\w-]+)(?:\([^)]*\))?", s)`. -/
def findPseudo (l : List Char) : List String :=
  findPseudoF (l.length + 1) l

/-- Model of `re.match(r"^([\w-]+)", s)`: a leading word/hyphen run, possibly
empty (the source stores `""` when the regex does not match). -/
def findTag (l : List Char) : String :=
  ⟨l.takeWhile isWordHy⟩

/-- The decomposition record built by `extract_selector_parts`. -/
structure SelectorParts where
  tag : String
  id : String
  classes : List String
  attributes : List String
  pseudo : List String
deriving DecidableEq, Repr

/-- Embedding of `extract_selector_parts`. -/
def extract_selector_parts (s : String) : SelectorParts :=
  { tag := findTag s.toList
    id := findId s.toList
    classes := findClasses s.toList
    attributes := findAttrs s.toList
    pseudo := findPseudo s.toList }

/-- Fuelled scan for `len(re.findall(r"#[\w-]+", s))`. -/
def countIdsF : Nat → List Char → Nat
  | 0, _ => 0
  | _, [] => 0
  | Nat.succ fuel, c :: cs =>
    if c = '#' then
      let run := cs.takeWhile isWordHy
      if run = [] then countIdsF fuel cs else 1 + countIdsF fuel (cs.drop run.length)
    else countIdsF fuel cs

/-- Model of `len(re.findall(r"#[\w-]+", s))`. -/
def countIds (l : List Char) : Nat :=
  countIdsF (l.length + 1) l

/-- Embedding of `get_selector_specificity` (utils.py lines 166-183). -/
def get_selector_specificity (s : String) : Nat × Nat × Nat :=
  let parts := extract_selector_parts s
  (countIds s.toList,
   parts.classes.length + parts.attributes.length + parts.pseudo.length,
   if parts.tag ≠ "" then 1 else 0)

/-! ## Embedding of the validator (validators.py) -/

/-- The `SelectorType` enumeration of validators.py. -/
inductive SelectorType where
  | CSS
  | XPATH
  | TAG
  | ID
  | CLASS
  | EMPTY
deriving DecidableEq, Repr

/-- The `.value` string of each enumeration member. -/
def SelectorType.value : SelectorType → String
  | .CSS => "css selector"
  | .XPATH => "xpath"
  | .TAG => "tag name"
  | .ID => "id"
  | .CLASS => "class name"
  | .EMPTY => "empty"

/-- The `SelectorInfo` dataclass of validators.py. -/
structure SelectorInfo where
  raw_selector : String
  selector_type : SelectorType
  processed_selector : String
  is_valid : Bool
  validation_message : String := ""
  specificity : Nat × Nat × Nat := (0, 0, 0)
deriving DecidableEq, Repr

/-- The fixed HTML-tag allow-list `SelectorValidator.HTML_TAGS`. -/
def HTML_TAGS : List String :=
  ["div", "span", "p", "a", "h1", "h2", "h3", "h4", "h5", "h6",
   "article", "section", "nav", "header", "footer", "main",
   "aside", "time", "figure", "figcaption", "img", "ul", "ol",
   "li", "table", "tr", "td", "th", "thead", "tbody", "form",
   "input", "button", "textarea"]

/-- ASCII model of Python `str.lower()`. -/
def pyLower (s : String) : String :=
  ⟨s.toList.map Char.toLower⟩

/-- Model of Python `sub in s` for a single character. -/
def pyContains (s : String) (c : Char) : Bool :=
  s.toList.contains c

/-- Model of Python `s.startswith(pre)`. -/
def pyStartsWith (s pre : String) : Bool :=
  pre.toList.isPrefixOf s.toList

/-- An exception escaping `determine_selector_type`: either the
`InvalidSelectorError` it raises itself, or the `TypeError` propagating out
of `normalize_selector`. -/
inductive PyErr where
  | invalidSelector (msg : String)
  | typeError
deriving DecidableEq, Repr

/-- The branch cascade of `SelectorValidator.determine_selector_type`
(validators.py lines 96-151), applied to the re-normalized selector.  The
two external grammar checkers are black-box parameters: `xo` stands for
`lxml.etree.XPath` (failure = `XPathSyntaxError` with a message) and `co`
for `cssselect.parse` (failure = `SelectorSyntaxError` with a message). -/
def determineCore (xo co : String → Except String Unit)
    (sel : String) : Except PyErr SelectorInfo :=
  if pyStartsWith sel "//" ∨ pyStartsWith sel "(//" then
        match xo sel with
        | .ok _ => .ok { raw_selector := sel, selector_type := .XPATH,
                         processed_selector := sel, is_valid := true }
        | .error e => .error (.invalidSelector ("Invalid XPath expression: " ++ e))
      else if HTML_TAGS.contains (pyLower sel) ∧ pyContains sel '.' = false ∧
              pyContains sel '#' = false then
        .ok { raw_selector := sel, selector_type := .TAG,
              processed_selector := pyLower sel, is_valid := true,
              specificity := (0, 0, 1) }
      else if (extract_selector_parts sel).id ≠ "" ∧
              (extract_selector_parts sel).classes = [] ∧
              (extract_selector_parts sel).attributes = [] ∧
              (extract_selector_parts sel).tag = "" then
        .ok { raw_selector := sel, selector_type := .ID,
              processed_selector := "#" ++ (extract_selector_parts sel).id,
              is_valid := true, specificity := (1, 0, 0) }
      else if (extract_selector_parts sel).classes ≠ [] ∧
              (extract_selector_parts sel).id = "" ∧
              (extract_selector_parts sel).attributes = [] ∧
              (extract_selector_parts sel).tag = "" then
        .ok { raw_selector := sel, selector_type := .CLASS,
              processed_selector := "." ++ (extract_selector_parts sel).classes.headD "",
              is_valid := true, specificity := (0, 1, 0) }
      else
        match co sel with
        | .ok _ => .ok { raw_selector := sel, selector_type := .CSS,
                         processed_selector := sel, is_valid := true,
                         specificity := get_selector_specificity sel }
        | .error e => .error (.invalidSelector ("Invalid CSS selector: " ++ e))

/-- Embedding of `SelectorValidator.determine_selector_type`: the `not
selector` guard, the re-normalization (whose `TypeError` propagates), then
the branch cascade `determineCore`. -/
def determine_selector_type (xo co : String → Except String Unit)
    (selector : String) : Except PyErr SelectorInfo :=
  if selector = "" then .error (.invalidSelector "Empty or invalid selector type")
  else
    match normalize_selector selector with
    | .error _ => .error .typeError
    | .ok sel => determineCore xo co sel

/-- One entry of the `processed_selectors` mapping built by
`process_selectors`. -/
structure FieldRecord where
  type : String
  processed : String
  is_valid : Bool
  message : String
  specificity : Nat × Nat × Nat
deriving DecidableEq, Repr

/-- The record stored for a field whose normalized selector is empty. -/
def emptyRecord : FieldRecord :=
  { type := "empty", processed := "", is_valid := true,
    message := "Empty selector", specificity := (0, 0, 0) }

/-- The record stored for a successfully classified field. -/
def recordOfInfo (i : SelectorInfo) : FieldRecord :=
  { type := i.selector_type.value, processed := i.processed_selector,
    is_valid := i.is_valid, message := i.validation_message,
    specificity := i.specificity }

/-- The record stored when `determine_selector_type` raises
`InvalidSelectorError`. -/
def invalidRecord (n msg : String) : FieldRecord :=
  { type := "invalid", processed := n, is_valid := false,
    message := msg, specificity := (0, 0, 0) }

/-- Embedding of `SelectorValidator.process_selectors` (validators.py lines
42-86).  The result pairs the `processed_selectors` mapping (in insertion
order) with the `all_valid` flag; `Except.error` is an exception other than
`InvalidSelectorError` escaping the loop (the `try` only catches
`InvalidSelectorError`, and the call to `normalize_selector` sits outside
it). -/
def process_selectors (xo co : String → Except String Unit) :
    List (String × String) → Except Unit (List (String × FieldRecord) × Bool)
  | [] => .ok ([], true)
  | (f, sel) :: rest =>
    match normalize_selector sel with
    | .error _ => .error ()
    | .ok n =>
      if n = "" then
        match process_selectors xo co rest with
        | .error e => .error e
        | .ok (rs, v) => .ok ((f, emptyRecord) :: rs, v)
      else
        match determine_selector_type xo co n with
        | .ok info =>
          match process_selectors xo co rest with
          | .error e => .error e
          | .ok (rs, v) =>
            .ok ((f, recordOfInfo info) :: rs, if info.is_valid then v else false)
        | .error (.invalidSelector msg) =>
          match process_selectors xo co rest with
          | .error e => .error e
          | .ok (rs, _) => .ok ((f, invalidRecord n msg) :: rs, false)
        | .error .typeError => .error ()

/-! ## Concrete instances of the black-box grammar checkers

The design treats the XPath and CSS grammar checkers as external black
boxes ("a boolean-plus-diagnostic result").  The instances below are used
to evaluate the classifier at concrete inputs; each records the behaviour
of the real library at the finitely many strings where it is applied. -/

/-- Modelled from the spec: the external XPath grammar checker
(`lxml.etree.XPath`), a black box per the design.  This instance accepts
its input; the real checker accepts the well-formed XPath expressions at
which it is used below (`"//div"`, `"(//a)[1]"`). -/
def xpathCheckModel : String → Except String Unit := fun _ => .ok ()

/-- Modelled from the spec: the external CSS selector grammar checker
(`cssselect.parse`), a black box per the design.  The real library raises
`SelectorSyntaxError` on the empty selector and on selectors beginning with
`/`, and accepts ordinary CSS such as `"div"` and `"div.x"`; this instance
records exactly that behaviour. -/
def cssCheckModel : String → Except String Unit := fun s =>
  if s = "" ∨ pyStartsWith s "/" then .error "parse error" else .ok ()

/-! ## Theorems -/

/-- Unfolding lemma: on a non-empty input with a successful normalization,
`determine_selector_type` is the branch cascade on the normalized string. -/
theorem determine_eq_core (xo co : String → Except String Unit) {s n : String}
    (hs : s ≠ "") (hnorm : normalize_selector s = .ok n) :
    determine_selector_type xo co s = determineCore xo co n := by
  unfold determine_selector_type
  rw [if_neg hs, hnorm]

/-! ### Lemmas about whitespace collapsing -/

/-- Collapsing starts by copying a non-whitespace head. -/
theorem ccore_cons_nonspace {c : Char} (cs : List Char) (h : pyIsSpace c = false) :
    ccore (c :: cs) = c :: ccore cs := by
  simp [ccore, h]

/-- One-step unfolding of `ccore` at a whitespace head. -/
theorem ccore_cons_space {c : Char} (cs : List Char) (h : pyIsSpace c = true) :
    ccore (c :: cs) = if (ccore cs).head? = some ' ' then ccore cs
      else if ccore cs = [] then [] else ' ' :: ccore cs := by
  have hbody : ccore (c :: cs) = (if pyIsSpace c = true then
      (if (ccore cs).head? = some ' ' then ccore cs
       else if ccore cs = [] then [] else ' ' :: ccore cs)
      else c :: ccore cs) := rfl
  rw [hbody, if_pos h]

/-- The output of `ccore` is in canonical whitespace form. -/
theorem ccore_canon (l : List Char) : Canon (ccore l) := by
  induction l with
  | nil => exact ⟨by simp [ccore], by simp [ccore], by simp [ccore]⟩
  | cons c cs ih =>
    obtain ⟨ih1, ih2, ih3⟩ := ih
    by_cases hc : pyIsSpace c = true
    · by_cases hh : (ccore cs).head? = some ' '
      · rw [ccore_cons_space cs hc, if_pos hh]
        exact ⟨ih1, ih2, ih3⟩
      · by_cases hn : ccore cs = []
        · rw [ccore_cons_space cs hc, if_neg hh, if_pos hn]
          exact ⟨by simp, by simp, by simp⟩
        · rw [ccore_cons_space cs hc, if_neg hh, if_neg hn]
          refine ⟨?_, ?_, ?_⟩
          · intro x hx hsx
            rcases List.mem_cons.mp hx with rfl | hx'
            · rfl
            · exact ih1 x hx' hsx
          · rw [List.chain'_cons']
            refine ⟨?_, ih2⟩
            intro y hy hpair
            apply hh
            rw [hpair.2] at hy
            exact Option.mem_def.mp hy
          · rcases hr : ccore cs with _ | ⟨d, ds⟩
            · exact absurd hr hn
            · rw [List.getLast?_cons_cons]
              rw [hr] at ih3
              exact ih3
    · rw [ccore_cons_nonspace cs (by simpa using hc)]
      have hc' : c ≠ ' ' := fun hcc => hc (by rw [hcc]; decide)
      refine ⟨?_, ?_, ?_⟩
      · intro x hx hsx
        rcases List.mem_cons.mp hx with rfl | hx'
        · exact absurd hsx (by simpa using hc)
        · exact ih1 x hx' hsx
      · rw [List.chain'_cons']
        exact ⟨fun y hy hpair => hc' hpair.1, ih2⟩
      · rcases hr : ccore cs with _ | ⟨d, ds⟩
        · simp [hc']
        · rw [List.getLast?_cons_cons]
          rw [hr] at ih3
          exact ih3

/-- The tail of a canonical list is canonical. -/
theorem canon_tail {c : Char} {cs : List Char} (h : Canon (c :: cs)) : Canon cs := by
  obtain ⟨h1, h2, h3⟩ := h
  refine ⟨fun x hx hs => h1 x (List.mem_cons_of_mem c hx) hs, h2.tail, ?_⟩
  rcases cs with _ | ⟨d, ds⟩
  · simp
  · rw [List.getLast?_cons_cons] at h3
    exact h3

/-- `ccore` fixes canonical lists. -/
theorem ccore_eq_self {l : List Char} (h : Canon l) : ccore l = l := by
  induction l with
  | nil => rfl
  | cons c cs ih =>
    have hcs := canon_tail h
    obtain ⟨h1, h2, h3⟩ := h
    by_cases hc : pyIsSpace c = true
    · have hc' : c = ' ' := h1 c (List.mem_cons_self c cs) hc
      rcases cs with _ | ⟨d, ds⟩
      · rw [hc'] at h3
        simp at h3
      · have hd : d ≠ ' ' := by
          rw [List.chain'_cons] at h2
          exact fun hdd => h2.1 ⟨hc', hdd⟩
        have ihcs : ccore (d :: ds) = d :: ds := ih hcs
        rw [ccore_cons_space (d :: ds) hc, ihcs, if_neg (by simp [hd]),
          if_neg (by simp), hc']
    · rw [ccore_cons_nonspace cs (by simpa using hc), ih hcs]

/-- The output of `collapse` is canonical. -/
theorem collapse_canon (l : List Char) : Canon (collapse l) := by
  unfold collapse
  by_cases hh : (ccore l).head? = some ' '
  · rw [if_pos hh]
    have h := ccore_canon l
    rcases hr : ccore l with _ | ⟨d, ds⟩
    · exact ⟨by simp, by simp, by simp⟩
    · rw [hr] at h
      exact canon_tail h
  · rw [if_neg hh]
    exact ccore_canon l

/-- The output of `collapse` does not start with a space. -/
theorem collapse_head_not_space (l : List Char) :
    (collapse l).head? ≠ some ' ' := by
  unfold collapse
  by_cases hh : (ccore l).head? = some ' '
  · rw [if_pos hh]
    have h := ccore_canon l
    rcases hr : ccore l with _ | ⟨d, ds⟩
    · simp
    · rw [hr] at hh h
      have hd : d = ' ' := by simpa using hh
      obtain ⟨_, h2, h3⟩ := h
      rcases ds with _ | ⟨e, es⟩
      · rw [hd] at h3
        simp at h3
      · rw [List.chain'_cons] at h2
        have he : e ≠ ' ' := fun hee => h2.1 ⟨hd, hee⟩
        simpa using he
  · rw [if_neg hh]
    exact hh

/-- `collapse` fixes canonical lists that do not start with a space. -/
theorem collapse_eq_self {l : List Char} (h : Canon l)
    (hh : l.head? ≠ some ' ') : collapse l = l := by
  unfold collapse
  rw [ccore_eq_self h, if_neg hh]

/-- Collapsing a list with a non-whitespace head keeps that head. -/
theorem collapse_cons_nonspace {c : Char} (cs : List Char)
    (h : pyIsSpace c = false) : collapse (c :: cs) = c :: ccore cs := by
  unfold collapse
  rw [ccore_cons_nonspace cs h]
  have hc : c ≠ ' ' := fun hcc => by
    rw [hcc] at h
    exact absurd h (by decide)
  rw [if_neg (by simp [hc])]

/-- Characters of `ccore l` are spaces or characters of `l`. -/
theorem mem_ccore {a : Char} {l : List Char} (h : a ∈ ccore l) :
    a = ' ' ∨ a ∈ l := by
  induction l with
  | nil => simp [ccore] at h
  | cons c cs ih =>
    by_cases hc : pyIsSpace c = true
    · rw [ccore_cons_space cs hc] at h
      by_cases hh : (ccore cs).head? = some ' '
      · rw [if_pos hh] at h
        rcases ih h with h' | h'
        · exact Or.inl h'
        · exact Or.inr (List.mem_cons_of_mem c h')
      · by_cases hn : ccore cs = []
        · rw [if_neg hh, if_pos hn] at h
          simp at h
        · rw [if_neg hh, if_neg hn] at h
          rcases List.mem_cons.mp h with rfl | h'
          · exact Or.inl rfl
          · rcases ih h' with h'' | h''
            · exact Or.inl h''
            · exact Or.inr (List.mem_cons_of_mem c h'')
    · rw [ccore_cons_nonspace cs (by simpa using hc)] at h
      rcases List.mem_cons.mp h with rfl | h'
      · exact Or.inr (by simp)
      · rcases ih h' with h'' | h''
        · exact Or.inl h''
        · exact Or.inr (List.mem_cons_of_mem c h'')

/-- Characters of `collapse l` are spaces or characters of `l`. -/
theorem mem_collapse {a : Char} {l : List Char} (h : a ∈ collapse l) :
    a = ' ' ∨ a ∈ l := by
  apply mem_ccore (l := l)
  unfold collapse at h
  by_cases hh : (ccore l).head? = some ' '
  · rw [if_pos hh] at h
    exact List.mem_of_mem_tail h
  · rw [if_neg hh] at h
    exact h

/-- `ccore` preserves the multiplicity of non-whitespace characters. -/
theorem count_ccore {a : Char} (ha : pyIsSpace a = false) (l : List Char) :
    (ccore l).count a = l.count a := by
  have ha' : a ≠ ' ' := fun haa => by
    rw [haa] at ha
    exact absurd ha (by decide)
  induction l with
  | nil => rfl
  | cons c cs ih =>
    by_cases hc : pyIsSpace c = true
    · have hca : c ≠ a := by
        intro hcc
        rw [hcc] at hc
        rw [hc] at ha
        exact Bool.noConfusion ha
      rw [List.count_cons, ccore_cons_space cs hc]
      by_cases hh : (ccore cs).head? = some ' '
      · rw [if_pos hh, ih]
        simp [hca]
      · by_cases hn : ccore cs = []
        · rw [if_neg hh, if_pos hn]
          rw [hn] at ih
          simp at ih
          simp [← ih, hca]
        · rw [if_neg hh, if_neg hn, List.count_cons, ih]
          simp [hca, Ne.symm ha']
    · rw [ccore_cons_nonspace cs (by simpa using hc), List.count_cons,
        List.count_cons, ih]

/-- `collapse` preserves the multiplicity of non-whitespace characters. -/
theorem count_collapse {a : Char} (ha : pyIsSpace a = false) (l : List Char) :
    (collapse l).count a = l.count a := by
  have ha' : a ≠ ' ' := fun haa => by
    rw [haa] at ha
    exact absurd ha (by decide)
  rw [← count_ccore ha l]
  unfold collapse
  by_cases hh : (ccore l).head? = some ' '
  · rw [if_pos hh]
    rcases hr : ccore l with _ | ⟨d, ds⟩
    · simp
    · rw [hr] at hh
      have hd : d = ' ' := by simpa using hh
      simp [List.count_cons, hd, Ne.symm ha']
  · rw [if_neg hh]

/-! ### Lemmas about stripping -/

/-- The head of a `dropWhile` result does not satisfy the predicate. -/
theorem dropWhile_head_not {p : Char → Bool} {l : List Char} {b : Char}
    (h : (l.dropWhile p).head? = some b) : p b = false := by
  induction l with
  | nil => simp [List.dropWhile] at h
  | cons c cs ih =>
    by_cases hc : p c = true
    · rw [List.dropWhile_cons, if_pos hc] at h
      exact ih h
    · rw [List.dropWhile_cons, if_neg hc] at h
      simp at h
      rw [← h]
      simpa using hc

/-- Dropping a prefix never erases a final element that fails the
predicate. -/
theorem dropWhile_append_last {p : Char → Bool} {a : Char} (ha : p a = false)
    (xs : List Char) :
    ∃ m, (xs ++ [a]).dropWhile p = m ++ [a] ∧ m <:+ xs := by
  induction xs with
  | nil =>
    refine ⟨[], ?_, List.nil_suffix⟩
    rw [List.nil_append, List.dropWhile_cons, if_neg (by simp [ha])]
  | cons x xs ih =>
    by_cases hx : p x = true
    · obtain ⟨m, hm, hsuf⟩ := ih
      refine ⟨m, ?_, hsuf.trans (List.suffix_cons x xs)⟩
      rw [List.cons_append, List.dropWhile_cons, if_pos hx]
      exact hm
    · refine ⟨x :: xs, ?_, List.suffix_refl _⟩
      rw [List.cons_append, List.dropWhile_cons, if_neg hx]

/-- A stripped list is an infix of the original. -/
theorem pyStripL_within (l : List Char) : pyStripL l <:+: l := by
  unfold pyStripL
  have h1 : l.dropWhile pyIsSpace <:+ l := List.dropWhile_suffix _
  have h2 : (l.dropWhile pyIsSpace).reverse.dropWhile pyIsSpace <:+
      (l.dropWhile pyIsSpace).reverse := List.dropWhile_suffix _
  have h3 : ((l.dropWhile pyIsSpace).reverse.dropWhile pyIsSpace).reverse <+:
      l.dropWhile pyIsSpace := by
    rw [← List.reverse_suffix, List.reverse_reverse]
    exact h2
  exact List.IsInfix.trans ( List.IsPrefix.isInfix h3) ( List.IsSuffix.isInfix h1)

/-- Characters of a stripped list come from the original. -/
theorem mem_pyStripL {l : List Char} {a : Char} (h : a ∈ pyStripL l) : a ∈ l :=
  (pyStripL_within l).subset h

/-- A stripped list does not start with whitespace. -/
theorem pyStripL_head_not_space {l : List Char} {b : Char}
    (h : (pyStripL l).head? = some b) : pyIsSpace b = false := by
  unfold pyStripL at h
  rw [List.head?_reverse] at h
  have hsuf : (l.dropWhile pyIsSpace).reverse.dropWhile pyIsSpace <:+
      (l.dropWhile pyIsSpace).reverse := List.dropWhile_suffix _
  obtain ⟨pre, hpre⟩ := hsuf
  have hne : (l.dropWhile pyIsSpace).reverse.dropWhile pyIsSpace ≠ [] := by
    intro hx
    rw [hx] at h
    simp at h
  have hlast : (l.dropWhile pyIsSpace).reverse.getLast? = some b := by
    rw [← hpre, List.getLast?_append_of_ne_nil pre hne]
    exact h
  rw [List.getLast?_reverse] at hlast
  exact dropWhile_head_not hlast

/-- A stripped list does not end with whitespace. -/
theorem pyStripL_last_not_space {l : List Char} {b : Char}
    (h : (pyStripL l).getLast? = some b) : pyIsSpace b = false := by
  unfold pyStripL at h
  rw [List.getLast?_reverse] at h
  exact dropWhile_head_not h

/-- Stripping a list with a non-whitespace head keeps that head, and the
remainder is a prefix of the original tail. -/
theorem pyStripL_cons_head {a : Char} {t : List Char} (ha : pyIsSpace a = false) :
    ∃ w, pyStripL (a :: t) = a :: w ∧ w <+: t := by
  unfold pyStripL
  rw [List.dropWhile_cons, if_neg (by simp [ha]), List.reverse_cons]
  obtain ⟨m, hm, hsuf⟩ := dropWhile_append_last (p := pyIsSpace) ha t.reverse
  rw [hm, List.reverse_append]
  refine ⟨m.reverse, by simp, ?_⟩
  rw [← List.reverse_suffix, List.reverse_reverse]
  exact hsuf

/-- Stripping fixes lists whose whitespace is canonical and which neither
start nor end with a space. -/
theorem pyStripL_eq_self {l : List Char}
    (hsp : ∀ c ∈ l, pyIsSpace c = true → c = ' ')
    (hh : l.head? ≠ some ' ') (hl : l.getLast? ≠ some ' ') : pyStripL l = l := by
  unfold pyStripL
  have h1 : l.dropWhile pyIsSpace = l := by
    rcases l with _ | ⟨c, cs⟩
    · rfl
    · rw [List.dropWhile_cons, if_neg]
      intro hx
      have hc' : c = ' ' := hsp c (by simp) hx
      rw [hc'] at hh
      simp at hh
  rw [h1]
  have h2 : l.reverse.dropWhile pyIsSpace = l.reverse := by
    rcases hr : l.reverse with _ | ⟨c, cs⟩
    · rfl
    · rw [List.dropWhile_cons, if_neg]
      intro hx
      have hcm : c ∈ l := by
        have hmem : c ∈ l.reverse := by
          rw [hr]
          exact List.mem_cons_self c cs
        exact List.mem_reverse.mp hmem
      have hc' : c = ' ' := hsp c hcm hx
      have hc : l.getLast? = some c := by
        rw [← List.head?_reverse, hr]
        rfl
      rw [hc'] at hc
      exact hl hc
  rw [h2, List.reverse_reverse]

/-! ### Lemmas about `splitOnC` and `normXpath` -/

/-- `splitOnC` always returns at least one chunk. -/
theorem splitOnC_ne_nil (sep : Char) (l : List Char) : splitOnC sep l ≠ [] := by
  induction l with
  | nil => simp [splitOnC]
  | cons c cs ih =>
    by_cases hc : c = sep
    · simp [splitOnC, hc]
    · rcases hm : splitOnC sep cs with _ | ⟨h', t'⟩
      · exact absurd hm ih
      · simp [splitOnC, hc, hm]

/-- Splitting after a non-separator head prepends the head to the first
chunk. -/
theorem splitOnC_cons_ne {sep c : Char} (cs : List Char) (hc : c ≠ sep) :
    ∃ h' t', splitOnC sep cs = h' :: t' ∧
      splitOnC sep (c :: cs) = (c :: h') :: t' := by
  rcases hm : splitOnC sep cs with _ | ⟨h', t'⟩
  · exact absurd hm (splitOnC_ne_nil sep cs)
  · exact ⟨h', t', rfl, by simp [splitOnC, hc, hm]⟩

/-- A separator-free list is a single chunk. -/
theorem splitOnC_of_not_mem {sep : Char} {l : List Char} (h : sep ∉ l) :
    splitOnC sep l = [l] := by
  induction l with
  | nil => rfl
  | cons c cs ih =>
    have hc : c ≠ sep := fun hcc => h (by rw [hcc]; exact List.mem_cons_self sep cs)
    have hcs : sep ∉ cs := fun hx => h (List.mem_cons_of_mem c hx)
    simp [splitOnC, hc, ih hcs]

/-- Splitting at the first separator occurrence. -/
theorem splitOnC_append {sep : Char} {p q : List Char} (h : sep ∉ p) :
    splitOnC sep (p ++ sep :: q) = p :: splitOnC sep q := by
  induction p with
  | nil => simp [splitOnC]
  | cons c cs ih =>
    have hc : c ≠ sep := fun hcc => h (by rw [hcc]; exact List.mem_cons_self sep cs)
    have hcs : sep ∉ cs := fun hx => h (List.mem_cons_of_mem c hx)
    rw [List.cons_append]
    simp [splitOnC, hc, ih hcs]

/-- The first chunk is a prefix of the split list. -/
theorem first_chunk_front {sep : Char} {l h : List Char} {t : List (List Char)}
    (hs : splitOnC sep l = h :: t) : h <+: l := by
  induction l generalizing h t with
  | nil =>
    have h0 : ([[]] : List (List Char)) = h :: t := hs
    have h1 : h = [] := by
      injection h0 with ha hb
      exact ha.symm
    rw [h1]
  | cons c cs ih =>
    by_cases hc : c = sep
    · rw [show splitOnC sep (c :: cs) = [] :: splitOnC sep cs from by
        simp [splitOnC, hc]] at hs
      have h1 : h = [] := by
        injection hs with ha hb
        exact ha.symm
      rw [h1]
      exact List.nil_prefix
    · obtain ⟨h2, t2, hm, hsplit⟩ := splitOnC_cons_ne cs hc
      rw [hsplit] at hs
      injection hs with h1 _
      rw [← h1]
      obtain ⟨r, hr⟩ := ih hm
      exact ⟨r, by rw [List.cons_append, hr]⟩

/-- Characters of any chunk come from the split list. -/
theorem chunk_subset {sep : Char} {l x : List Char}
    (hx : x ∈ splitOnC sep l) {a : Char} (ha : a ∈ x) : a ∈ l := by
  induction l generalizing x with
  | nil =>
    have : x ∈ ([[]] : List (List Char)) := hx
    simp at this
    rw [this] at ha
    simp at ha
  | cons c cs ih =>
    by_cases hc : c = sep
    · rw [show splitOnC sep (c :: cs) = [] :: splitOnC sep cs from by
        simp [splitOnC, hc]] at hx
      rcases List.mem_cons.mp hx with rfl | hx'
      · simp at ha
      · exact List.mem_cons_of_mem c (ih hx' ha)
    · obtain ⟨h2, t2, hm, hsplit⟩ := splitOnC_cons_ne cs hc
      rw [hsplit] at hx
      rcases List.mem_cons.mp hx with rfl | hx'
      · rcases List.mem_cons.mp ha with rfl | ha'
        · exact List.mem_cons_self a cs
        · exact List.mem_cons_of_mem c (ih (by rw [hm]; exact List.mem_cons_self h2 t2) ha')
      · exact List.mem_cons_of_mem c (ih (by rw [hm]; exact List.mem_cons_of_mem h2 hx') ha)

/-- A list with exactly one occurrence of `sep` decomposes around it. -/
theorem count_one_decomp {sep : Char} {l : List Char} (h : l.count sep = 1) :
    ∃ p q, l = p ++ sep :: q ∧ sep ∉ p ∧ sep ∉ q := by
  induction l with
  | nil => simp at h
  | cons c cs ih =>
    by_cases hc : c = sep
    · refine ⟨[], cs, by rw [hc]; rfl, by simp, ?_⟩
      rw [List.count_cons] at h
      simp [hc] at h
      exact List.count_eq_zero.mp h
    · rw [List.count_cons] at h
      have hcs : cs.count sep = 1 := by simpa [hc] using h
      obtain ⟨p, q, hdecomp, hp, hq⟩ := ih hcs
      refine ⟨c :: p, q, by rw [hdecomp, List.cons_append], ?_, hq⟩
      intro hx
      rcases List.mem_cons.mp hx with h' | h'
      · exact hc h'.symm
      · exact hp h'

/-- Characters of a joined list come from the separator or the chunks. -/
theorem mem_pyJoinSep {sep : List Char} {xs : List (List Char)} {a : Char}
    (h : a ∈ pyJoinSep sep xs) : a ∈ sep ∨ ∃ x ∈ xs, a ∈ x := by
  induction xs with
  | nil => simp [pyJoinSep] at h
  | cons x xs ih =>
    rcases xs with _ | ⟨y, ys⟩
    · rw [show pyJoinSep sep [x] = x from rfl] at h
      exact Or.inr ⟨x, by simp, h⟩
    · rw [show pyJoinSep sep (x :: y :: ys) = x ++ sep ++ pyJoinSep sep (y :: ys)
        from rfl] at h
      rcases List.mem_append.mp h with h1 | h2
      · rcases List.mem_append.mp h1 with hx | hsep
        · exact Or.inr ⟨x, by simp, hx⟩
        · exact Or.inl hsep
      · rcases ih h2 with h' | ⟨z, hz, haz⟩
        · exact Or.inl h'
        · exact Or.inr ⟨z, List.mem_cons_of_mem x hz, haz⟩

/-- Characters of `normXpath l` come from `l` or are brackets. -/
theorem mem_normXpath {l : List Char} {a : Char} (h : a ∈ normXpath l) :
    a ∈ l ∨ a = '[' ∨ a = ']' := by
  unfold normXpath at h
  rcases hs : splitOnC '[' l with _ | ⟨p, ps⟩
  · exact absurd hs (splitOnC_ne_nil '[' l)
  · rcases ps with _ | ⟨p2, ps2⟩
    · rw [hs] at h
      exact Or.inl (mem_pyStripL h)
    · rw [hs] at h
      have h' : a ∈ pyStripL p ++ '[' :: pyJoinSep [']', '[']
          ((p2 :: ps2).map pyStripL) := h
      rcases List.mem_append.mp h' with h1 | h2
      · exact Or.inl (chunk_subset (by rw [hs]; exact List.mem_cons_self p (p2 :: ps2))
          (mem_pyStripL h1))
      · rcases List.mem_cons.mp h2 with rfl | h3
        · exact Or.inr (Or.inl rfl)
        · rcases mem_pyJoinSep h3 with hsep | ⟨x, hxx, hax⟩
          · rcases List.mem_cons.mp hsep with rfl | hsep2
            · exact Or.inr (Or.inr rfl)
            · have : a = '[' := by simpa using hsep2
              exact Or.inr (Or.inl this)
          · obtain ⟨y, hy, rfl⟩ := List.mem_map.mp hxx
            have hyl : y ∈ splitOnC '[' l := by
              rw [hs]
              exact List.mem_cons_of_mem p hy
            exact Or.inl (chunk_subset hyl (mem_pyStripL hax))

/-- A one-character prefix test pins down the first character. -/
theorem isPrefixOf_one {a : Char} {l : List Char}
    (h : [a].isPrefixOf l = true) : ∃ t, l = a :: t := by
  match l with
  | [] => simp [List.isPrefixOf] at h
  | x :: t =>
    simp [List.isPrefixOf] at h
    exact ⟨t, by rw [h]⟩

/-- After collapsing, the head of the tail is still not a slash. -/
theorem ccore_head_ne {t : List Char} {x : Char} (hx : x ≠ ' ')
    (h : t.head? ≠ some x) : (ccore t).head? ≠ some x := by
  rcases t with _ | ⟨c, cs⟩
  · simp [ccore]
  · by_cases hc : pyIsSpace c = true
    · rw [ccore_cons_space cs hc]
      by_cases hh : (ccore cs).head? = some ' '
      · rw [if_pos hh, hh]
        simp [Ne.symm hx]
      · by_cases hn : ccore cs = []
        · rw [if_neg hh, if_pos hn]
          simp
        · rw [if_neg hh, if_neg hn]
          simp [Ne.symm hx]
    · rw [ccore_cons_nonspace cs (by simpa using hc)]
      have : c ≠ x := by simpa using h
      simpa using this

/-- The shape of a single-slash selector survives XPath normalization: the
result still starts with `'/'` and its second character is not `'/'`. -/
theorem normXpath_shape {u : List Char} (h : u.head? ≠ some '/') :
    ∃ v, normXpath ('/' :: u) = '/' :: v ∧ v.head? ≠ some '/' := by
  obtain ⟨h', t', hm, hsplit⟩ := splitOnC_cons_ne u (by decide : ('/' : Char) ≠ '[')
  unfold normXpath
  rw [hsplit]
  rcases t' with _ | ⟨p2, ps⟩
  · obtain ⟨w, hw, hwpre⟩ := pyStripL_cons_head (t := u)
      (by decide : pyIsSpace '/' = false)
    refine ⟨w, hw, ?_⟩
    rcases hwp : w with _ | ⟨y, ys⟩
    · simp
    · obtain ⟨r, hr⟩ := hwpre
      rw [hwp] at hr
      have hy : u.head? = some y := by
        rw [← hr]
        rfl
      intro hx
      simp at hx
      rw [hx] at hy
      exact h hy
  · obtain ⟨w, hw, hwpre⟩ := pyStripL_cons_head (t := h')
      (by decide : pyIsSpace '/' = false)
    refine ⟨w ++ '[' :: pyJoinSep [']', '['] ((p2 :: ps).map pyStripL), ?_, ?_⟩
    · show pyStripL ('/' :: h') ++ '[' ::
        pyJoinSep [']', '['] ((p2 :: ps).map pyStripL) = _
      rw [hw]
      simp
    · rcases hwp : w with _ | ⟨y, ys⟩
      · simp

      · have hpre : w <+: u := hwpre.trans (first_chunk_front hm)
        obtain ⟨r, hr⟩ := hpre
        rw [hwp] at hr
        have hy : u.head? = some y := by
          rw [← hr]
          rfl
        intro hx
        rw [List.cons_append] at hx
        simp at hx
        rw [hx] at hy
        exact h hy

/-- Fixpoint property of `normXpath` on canonical lists with at most one
`'['`: the result is canonical, keeps the head, and is itself fixed. -/
theorem normXpath_fix {l : List Char} (hcanon : Canon l) {a : Char}
    (hh : l.head? = some a) (ha : pyIsSpace a = false) (hsep : a ≠ '[')
    (hcount : l.count '[' ≤ 1) :
    Canon (normXpath l) ∧ (normXpath l).head? = some a ∧
      normXpath (normXpath l) = normXpath l := by
  have hhns : l.head? ≠ some ' ' := by
    rw [hh]
    intro hx
    injection hx with hx'
    rw [hx'] at ha
    exact absurd ha (by decide)
  rcases Nat.le_one_iff_eq_zero_or_eq_one.mp hcount with h0 | h1
  · have hnot : '[' ∉ l := List.count_eq_zero.mp h0
    have hnx : normXpath l = pyStripL l := by
      unfold normXpath
      rw [splitOnC_of_not_mem hnot]
    have hfix : normXpath l = l := by
      rw [hnx]
      exact pyStripL_eq_self hcanon.1 hhns hcanon.2.2
    rw [hfix]
    exact ⟨hcanon, hh, by rw [hfix]⟩
  · obtain ⟨p, q, rfl, hp, hq⟩ := count_one_decomp h1
    rcases p with _ | ⟨x, xs⟩
    · rw [List.nil_append] at hh
      simp at hh
      exact absurd hh.symm hsep
    · have hxa : x = a := by
        rw [List.cons_append] at hh
        simpa using hh
      subst hxa
      obtain ⟨w, hA, hw⟩ := pyStripL_cons_head (t := xs) ha
      have hsplit : splitOnC '[' ((x :: xs) ++ '[' :: q) =
          (x :: xs) :: splitOnC '[' q := splitOnC_append hp
      have hq0 : splitOnC '[' q = [q] := splitOnC_of_not_mem hq
      have hnx : normXpath ((x :: xs) ++ '[' :: q) =
          pyStripL (x :: xs) ++ '[' :: pyStripL q := by
        unfold normXpath
        rw [hsplit, hq0]
        rfl
      have hAne : pyStripL (x :: xs) ≠ [] := by
        rw [hA]
        simp
      have hAin : pyStripL (x :: xs) <:+: (x :: xs) ++ '[' :: q :=
        (pyStripL_within (x :: xs)).trans ⟨[], '[' :: q, rfl⟩
      have hBin : pyStripL q <:+: (x :: xs) ++ '[' :: q :=
        (pyStripL_within q).trans ⟨(x :: xs) ++ ['['], [], by simp⟩
      have hAsub : ∀ b ∈ pyStripL (x :: xs), b ∈ (x :: xs) ++ '[' :: q :=
        fun b hb => hAin.subset hb
      have hBsub : ∀ b ∈ pyStripL q, b ∈ (x :: xs) ++ '[' :: q :=
        fun b hb => hBin.subset hb
      have hAlast : (pyStripL (x :: xs)).getLast? ≠ some ' ' := by
        intro hx2
        exact absurd (pyStripL_last_not_space hx2) (by decide)
      have hBlast : (pyStripL q).getLast? ≠ some ' ' := by
        intro hx2
        exact absurd (pyStripL_last_not_space hx2) (by decide)
      have hBhead : (pyStripL q).head? ≠ some ' ' := by
        intro hx2
        exact absurd (pyStripL_head_not_space hx2) (by decide)
      have hAnotsep : '[' ∉ pyStripL (x :: xs) :=
        fun hx2 => hp (mem_pyStripL hx2)
      have hBnotsep : '[' ∉ pyStripL q :=
        fun hx2 => hq (mem_pyStripL hx2)
      have hcanonm : Canon (pyStripL (x :: xs) ++ '[' :: pyStripL q) := by
        refine ⟨?_, ?_, ?_⟩
        · intro b hb hsb
          rcases List.mem_append.mp hb with hb1 | hb2
          · exact hcanon.1 b (hAsub b hb1) hsb
          · rcases List.mem_cons.mp hb2 with rfl | hb3
            · exact absurd hsb (by decide)
            · exact hcanon.1 b (hBsub b hb3) hsb
        · rw [List.chain'_append]
          refine ⟨ List.Chain'.infix hcanon.2.1 hAin, ?_, ?_⟩
          · rw [List.chain'_cons']
            refine ⟨fun y hy hpair => by exact absurd hpair.1 (by decide), ?_⟩
            exact List.Chain'.infix hcanon.2.1 hBin
          · intro b hb y hy hpair
            have h1 : '[' = y := by simpa using hy
            rw [← h1] at hpair
            exact absurd hpair.2 (by decide)
        · rw [List.getLast?_append_of_ne_nil _ (by simp : ('[' :: pyStripL q) ≠ [])]
          rcases hB : pyStripL q with _ | ⟨b, bs⟩
          · simp
          · rw [List.getLast?_cons_cons]
            rw [hB] at hBlast
            exact hBlast
      have hheadm : (pyStripL (x :: xs) ++ '[' :: pyStripL q).head? = some x := by
        rw [List.head?_append_of_ne_nil _ hAne, hA]
        rfl
      have hcountm : (pyStripL (x :: xs) ++ '[' :: pyStripL q).count '[' = 1 := by
        rw [List.count_append, List.count_cons]
        rw [List.count_eq_zero.mpr hAnotsep, List.count_eq_zero.mpr hBnotsep]
        simp
      have hfix2 : normXpath (pyStripL (x :: xs) ++ '[' :: pyStripL q) =
          pyStripL (x :: xs) ++ '[' :: pyStripL q := by
        unfold normXpath
        rw [splitOnC_append hAnotsep, splitOnC_of_not_mem hBnotsep]
        show pyStripL (pyStripL (x :: xs)) ++ '[' :: pyStripL (pyStripL q) =
          pyStripL (x :: xs) ++ '[' :: pyStripL q
        have hA2 : pyStripL (pyStripL (x :: xs)) = pyStripL (x :: xs) := by
          refine pyStripL_eq_self ?_ ?_ hAlast
          · intro b hb hsb
            exact hcanon.1 b (hAsub b hb) hsb
          · rw [hA]
            intro hx2
            injection hx2 with hx3
            rw [hx3] at ha
            exact absurd ha (by decide)
        have hB2 : pyStripL (pyStripL q) = pyStripL q := by
          refine pyStripL_eq_self ?_ hBhead hBlast
          intro b hb hsb
          exact hcanon.1 b (hBsub b hb) hsb
        rw [hA2, hB2]
      rw [hnx]
      exact ⟨hcanonm, hheadm, hfix2⟩

/-- C4.  The claim states `normalize_selector` never raises; in fact for the
input `"100px"` the CSS tokenizer produces a dimension token whose `.value`
is the number `100`, the loop appends that numeric value to `result_parts`
(its own comment says it intends the text, `"100px"`), and the final
`"".join(result_parts)` raises `TypeError`.  The embedded function
evaluates to the error at exactly that input. -/
theorem claim4_normalize_raises_on_dimension :
    normalize_selector "100px" = .error () ∧
      tokenize "100px".toList = [CVal.dim "100" "px"] ∧
      cssPart (CVal.dim "100" "px") = PyVal.nonStr := by
  refine ⟨by rfl, by rfl, by rfl⟩

/-- C1.  The claim states `process_selectors` never propagates an exception;
in fact the `TypeError` raised inside `_normalize_css` for the field value
`"100px"` (see `claim4_normalize_raises_on_dimension`) escapes the loop,
because `normalize_selector` is called outside the `try` block and the
`except` clause only catches `InvalidSelectorError`.  The whole batch call
errors instead of returning a record map. -/
theorem claim1_batch_propagates_type_error :
    process_selectors xpathCheckModel cssCheckModel [("field", "100px")] = .error () := by
  rfl

/-- C8.  `get_selector_specificity` returns the triple made of the count of
`#`-prefixed occurrences (not deduplicated), the total number of extracted
classes, attributes and pseudo parts, and an element count of 1 exactly
when a leading tag was extracted; on the spec's example it yields
`(1, 3, 1)`, and repeated ids are counted multiple times. -/
theorem claim8_specificity :
    get_selector_specificity "div#id.class[attr]:hover" = (1, 3, 1) ∧
      (get_selector_specificity "#x.y#x" = (2, 1, 0)) ∧
      ∀ s : String,
        get_selector_specificity s =
          (countIds s.toList,
           (extract_selector_parts s).classes.length +
             (extract_selector_parts s).attributes.length +
             (extract_selector_parts s).pseudo.length,
           if (extract_selector_parts s).tag ≠ "" then 1 else 0) := by
  exact ⟨by rfl, by rfl, fun s => rfl⟩

/-- C5 counterexample.  The claim says the whitespace in `"a[href] b"` and in
`"div [href]"` survives normalization as a single descendant-combinator
space; in fact `tinycss2` parses `[href]` as a single block component value
whose type `"[] block"` is not in the word-like set of
`_needs_descendant_space`, so both spaces are dropped. -/
theorem claim5_counterexample :
    normalize_selector "a[href] b" = .ok "a[href]b" ∧
      normalize_selector "a[href] b" ≠ .ok "a[href] b" ∧
      normalize_selector "div [href]" = .ok "div[href]" ∧
      normalize_selector "div [href]" ≠ .ok "div [href]" := by
  refine ⟨by rfl, by decide, by rfl, by decide⟩

/-- C5 as amended.  In CSS normalization a single space is emitted between
two adjacent non-whitespace component values exactly when both have a type
in the word-like set, and this happens whether or not whitespace stood
between them (`"div#a"` gains a space); bracketed selectors are single
block component values of type `"[] block"`, which is not word-like, so
whitespace next to them is dropped: `"a[href] b"` normalizes to
`"a[href]b"` and `"div [href]"` to `"div[href]"`. -/
theorem claim5_amended :
    normalize_selector "a[href] b" = .ok "a[href]b" ∧
      normalize_selector "div [href]" = .ok "div[href]" ∧
      normalize_selector "div#a" = .ok "div #a" ∧
      (∀ content : List CVal,
        needsDescendantSpace (CVal.sqBlock content) (CVal.ident "b") = false ∧
          needsDescendantSpace (CVal.ident "div") (CVal.sqBlock content) = false) ∧
      needsDescendantSpace (CVal.ident "div") (CVal.hash "a") = true := by
  exact ⟨by rfl, by rfl, by rfl, fun content => ⟨by rfl, by rfl⟩, by rfl⟩

/-- C2 counterexample.  The claim says `determine_selector_type` returns an
`Empty`, valid record for inputs whose normalized form is empty; in fact
the empty string is rejected immediately by the `not selector` guard, and a
whitespace-only string normalizes to `""`, falls through every specific
branch and is rejected by the CSS grammar check, so both fail with
`InvalidSelectorError` and no record is returned. -/
theorem claim2_counterexample :
    determine_selector_type xpathCheckModel cssCheckModel "" =
        .error (.invalidSelector "Empty or invalid selector type") ∧
      determine_selector_type xpathCheckModel cssCheckModel "   " =
        .error (.invalidSelector "Invalid CSS selector: parse error") := by
  exact ⟨by rfl, by rfl⟩

/-- C3 counterexample.  Normalization is not idempotent on either path: on
the XPath path, re-joining the `'['`-split segments with `"]["` duplicates
the `']'` that each segment already carries, so `"/a[x][y]"` normalizes to
`"/a[x]][y]"` whose normalization is `"/a[x]]][y]"`; on the CSS path a
quoted string token is unquoted once, and the unquoted text re-tokenizes
differently (`"\"a#b\""` normalizes to `"a#b"`, whose normalization is
`"a #b"`). -/
theorem claim3_counterexample :
    normalize_selector "/a[x][y]" = .ok "/a[x]][y]" ∧
      normalize_selector "/a[x]][y]" = .ok "/a[x]]][y]" ∧
      ("/a[x]]][y]" : String) ≠ "/a[x]][y]" ∧
      normalize_selector "\"a#b\"" = .ok "a#b" ∧
      normalize_selector "a#b" = .ok "a #b" ∧
      ("a #b" : String) ≠ "a#b" := by
  refine ⟨by rfl, by rfl, by decide, by rfl, by rfl, by decide⟩

/-- C6 counterexample.  A selector accepted by the XPath branch can begin
with `"(//"`, in which case the processed selector does not begin with
`/`: classifying `"(//a)[1]"` yields kind `XPath` with processed selector
`"(//a)[1]"`, which starts with `'('`. -/
theorem claim6_counterexample :
    determine_selector_type xpathCheckModel cssCheckModel "(//a)[1]" =
        .ok { raw_selector := "(//a)[1]", selector_type := .XPATH,
              processed_selector := "(//a)[1]", is_valid := true,
              validation_message := "", specificity := (0, 0, 0) } ∧
      pyStartsWith "(//a)[1]" "/" = false ∧
      pyStartsWith "(//a)[1]" "//" = false := by
  exact ⟨by rfl, by rfl, by rfl⟩

/-- C10 counterexample.  The claim says every selector beginning with a
single `/` fails with `InvalidSelector`; in fact such a selector can still
satisfy the ID (or class) extraction branch: `"/a#b"` is classified as
kind `ID` with processed selector `"#b"`, and no error is raised. -/
theorem claim10_counterexample :
    determine_selector_type xpathCheckModel cssCheckModel "/a#b" =
        .ok { raw_selector := "/a#b", selector_type := .ID,
              processed_selector := "#b", is_valid := true,
              validation_message := "", specificity := (1, 0, 0) } ∧
      pyStartsWith "/a#b" "/" = true ∧
      pyStartsWith "/a#b" "//" = false := by
  exact ⟨by rfl, by rfl, by rfl⟩

/-- C6 as amended.  Every record produced by `determine_selector_type` with
kind `XPath` has a processed selector beginning with `"//"` or `"(//"`
(the exact guard of the XPath branch, whose result is the guarded string
itself); a bare `"/"` prefix is not guaranteed, see the counterexample. -/
theorem claim6_amended (xo co : String → Except String Unit) (s : String)
    (r : SelectorInfo) (hok : determine_selector_type xo co s = .ok r)
    (hx : r.selector_type = SelectorType.XPATH) :
    pyStartsWith r.processed_selector "//" = true ∨
      pyStartsWith r.processed_selector "(//" = true := by
  by_cases hs : s = ""
  · rw [hs] at hok
    simp [determine_selector_type] at hok
  · rcases hnorm : normalize_selector s with e | sel
    · unfold determine_selector_type at hok
      rw [if_neg hs, hnorm] at hok
      simp at hok
    · rw [determine_eq_core xo co hs hnorm] at hok
      unfold determineCore at hok
      split at hok
      · rename_i h1
        split at hok
        · rcases hok with ⟨rfl⟩
          exact h1
        · simp at hok
      · split at hok
        · rcases hok with ⟨rfl⟩
          simp at hx
        · split at hok
          · rcases hok with ⟨rfl⟩
            simp at hx
          · split at hok
            · rcases hok with ⟨rfl⟩
              simp at hx
            · split at hok
              · rcases hok with ⟨rfl⟩
                simp at hx
              · simp at hok

/-- Witness for `claim6_amended` at the concrete input `"(//a)[1]"`. -/
theorem claim6_amended_witness :
    pyStartsWith "(//a)[1]" "//" = true ∨ pyStartsWith "(//a)[1]" "(//" = true := by
  exact claim6_amended xpathCheckModel cssCheckModel "(//a)[1]"
    { raw_selector := "(//a)[1]", selector_type := .XPATH,
      processed_selector := "(//a)[1]", is_valid := true,
      validation_message := "", specificity := (0, 0, 0) } (by rfl) (by rfl)

/-- C9.  For every batch that `process_selectors` completes, the returned
`all_valid` flag is `true` exactly when every record of
`processed_selectors` has `is_valid = true` (records of empty selectors
are valid). -/
theorem claim9_all_valid_iff (xo co : String → Except String Unit)
    (fields : List (String × String)) (rs : List (String × FieldRecord)) (v : Bool)
    (h : process_selectors xo co fields = .ok (rs, v)) :
    v = true ↔ ∀ p ∈ rs, (p.2).is_valid = true := by
  induction fields generalizing rs v with
  | nil =>
    simp only [process_selectors] at h
    rcases h with ⟨rfl⟩
    simp
  | cons fs rest ih =>
    obtain ⟨f, sel⟩ := fs
    simp only [process_selectors] at h
    split at h
    · simp at h
    · split_ifs at h with he
      · split at h
        · simp at h
        · rename_i rs' v' hrest
          simp only [Except.ok.injEq, Prod.mk.injEq] at h
          obtain ⟨rfl, rfl⟩ := h
          simp only [List.forall_mem_cons]
          have hemp : emptyRecord.is_valid = true := by rfl
          simp [hemp, ih rs' v' hrest]
      · split at h
        · rename_i info hd
          split at h
          · simp at h
          · rename_i rs' v' hrest
            simp only [Except.ok.injEq, Prod.mk.injEq] at h
            obtain ⟨rfl, rfl⟩ := h
            by_cases hv : info.is_valid = true
            · simp only [List.forall_mem_cons, recordOfInfo, hv, if_true]
              simp [hv, ih rs' v' hrest]
            · simp only [List.forall_mem_cons, recordOfInfo]
              simp [hv]
        · split at h
          · simp at h
          · rename_i rs' v' hrest
            simp only [Except.ok.injEq, Prod.mk.injEq] at h
            obtain ⟨rfl, rfl⟩ := h
            simp [invalidRecord]
        · simp at h

/-- A two-character prefix test pins down the first two characters. -/
theorem isPrefixOf_two {a b : Char} {l : List Char}
    (h : [a, b].isPrefixOf l = true) : ∃ t, l = a :: b :: t := by
  match l with
  | [] => simp [List.isPrefixOf] at h
  | [x] => simp [List.isPrefixOf] at h
  | x :: y :: t =>
    simp [List.isPrefixOf] at h
    exact ⟨t, by rw [h.1, h.2]⟩

/-- A three-character prefix test pins down the first three characters. -/
theorem isPrefixOf_three {a b c : Char} {l : List Char}
    (h : [a, b, c].isPrefixOf l = true) : ∃ t, l = a :: b :: c :: t := by
  match l with
  | [] => simp [List.isPrefixOf] at h
  | [x] => simp [List.isPrefixOf] at h
  | [x, y] => simp [List.isPrefixOf] at h
  | x :: y :: z :: t =>
    simp [List.isPrefixOf] at h
    exact ⟨t, by rw [h.1, h.2.1, h.2.2]⟩

/-- No member of the HTML-tag allow-list starts with a slash or an opening
parenthesis, so a selector whose lower-casing is in the list never passes
the XPath guard. -/
theorem tag_no_slash (n : String) (h : HTML_TAGS.contains (pyLower n) = true) :
    pyStartsWith n "//" = false ∧ pyStartsWith n "(//" = false := by
  have hmem : pyLower n ∈ HTML_TAGS := by simpa using h
  have hall : ∀ x ∈ HTML_TAGS, x.toList.headD ' ' ≠ '/' ∧ x.toList.headD ' ' ≠ '(' := by
    decide
  have hh := hall _ hmem
  constructor
  · by_contra hc
    rw [Bool.not_eq_false] at hc
    have hc' : ([ '/', '/' ] : List Char).isPrefixOf n.toList = true := hc
    obtain ⟨t, ht⟩ := isPrefixOf_two hc'
    have hhead : (pyLower n).toList.headD ' ' = '/' := by
      show (n.toList.map Char.toLower).headD ' ' = '/'
      rw [ht]
      rfl
    exact hh.1 hhead
  · by_contra hc
    rw [Bool.not_eq_false] at hc
    have hc' : ([ '(', '/', '/' ] : List Char).isPrefixOf n.toList = true := hc
    obtain ⟨t, ht⟩ := isPrefixOf_three hc'
    have hhead : (pyLower n).toList.headD ' ' = '(' := by
      show (n.toList.map Char.toLower).headD ' ' = '('
      rw [ht]
      rfl
    exact hh.2 hhead

/-- C2 as amended.  `determine_selector_type` does not return an `Empty`
record: the empty string is rejected by its first guard with
`InvalidSelectorError("Empty or invalid selector type")`, and a non-empty
input whose normalized form is empty falls through to the CSS grammar
check on `""` and fails with `InvalidSelectorError("Invalid CSS selector:
...")`; the `Empty`, valid, `(0,0,0)` record of the spec is produced by
`process_selectors`, which short-circuits fields whose normalized selector
is empty before calling the classifier. -/
theorem claim2_amended (xo co : String → Except String Unit) :
    determine_selector_type xo co "" =
        .error (.invalidSelector "Empty or invalid selector type") ∧
      (∀ s d, s ≠ "" → normalize_selector s = .ok "" → co "" = .error d →
        determine_selector_type xo co s =
          .error (.invalidSelector ("Invalid CSS selector: " ++ d))) ∧
      (∀ f s fields, normalize_selector s = .ok "" →
        process_selectors xo co ((f, s) :: fields) =
          (process_selectors xo co fields).map
            (fun rv => ((f, emptyRecord) :: rv.1, rv.2))) := by
  refine ⟨by rfl, ?_, ?_⟩
  · intro s d hs hnorm hd
    rw [determine_eq_core xo co hs hnorm]
    have hcore : determineCore xo co "" =
        (match co "" with
         | .ok _ => .ok { raw_selector := "", selector_type := .CSS,
                          processed_selector := "", is_valid := true,
                          validation_message := "",
                          specificity := get_selector_specificity "" }
         | .error e => .error (.invalidSelector ("Invalid CSS selector: " ++ e))) := by
      rfl
    rw [hcore, hd]
  · intro f s fields hnorm
    simp only [process_selectors, hnorm, if_true]
    rcases hrest : process_selectors xo co fields with e | p
    · simp [Except.map]
    · simp [Except.map]

/-- Witness for `claim2_amended` at the whitespace-only input `" "`. -/
theorem claim2_amended_witness :
    determine_selector_type xpathCheckModel cssCheckModel " " =
        .error (.invalidSelector "Invalid CSS selector: parse error") ∧
      process_selectors xpathCheckModel cssCheckModel [("c", " ")] =
        .ok ([("c", emptyRecord)], true) := by
  constructor
  · exact (claim2_amended xpathCheckModel cssCheckModel).2.1 " " "parse error"
      (by decide) (by rfl) (by rfl)
  · have h := (claim2_amended xpathCheckModel cssCheckModel).2.2 "c" " " [] (by rfl)
    simpa [process_selectors, Except.map] using h

/-- C7.  Classification precedence around the Tag branch: `"div"` is
classified as kind `Tag` with processed selector `"div"` and specificity
`(0,0,1)`; `"div.x"` is classified as kind `Css` (the `.` disqualifies the
Tag branch) whenever the CSS grammar check accepts it; and in general the
classifier returns a `Tag` record exactly when the lower-cased normalized
selector is in the HTML-tag allow-list and contains neither `.` nor `#`. -/
theorem claim7_tag_precedence (xo co : String → Except String Unit) :
    determine_selector_type xo co "div" =
        .ok { raw_selector := "div", selector_type := .TAG,
              processed_selector := "div", is_valid := true,
              validation_message := "", specificity := (0, 0, 1) } ∧
      (co "div.x" = .ok () →
        determine_selector_type xo co "div.x" =
          .ok { raw_selector := "div.x", selector_type := .CSS,
                processed_selector := "div.x", is_valid := true,
                validation_message := "", specificity := (0, 1, 1) }) ∧
      (∀ s n, normalize_selector s = .ok n →
        ((∃ r, determine_selector_type xo co s = .ok r ∧
            r.selector_type = SelectorType.TAG) ↔
          (HTML_TAGS.contains (pyLower n) = true ∧ pyContains n '.' = false ∧
            pyContains n '#' = false))) := by
  refine ⟨by rfl, ?_, ?_⟩
  · intro hco
    have hstep : determine_selector_type xo co "div.x" =
        (match co "div.x" with
         | .ok _ => .ok { raw_selector := "div.x", selector_type := .CSS,
                          processed_selector := "div.x", is_valid := true,
                          validation_message := "",
                          specificity := get_selector_specificity "div.x" }
         | .error e => .error (.invalidSelector ("Invalid CSS selector: " ++ e))) := by
      rfl
    rw [hstep, hco]
    rfl
  · intro s n hnorm
    constructor
    · rintro ⟨r, hok, hx⟩
      by_cases hs : s = ""
      · rw [hs] at hok
        simp [determine_selector_type] at hok
      · rw [determine_eq_core xo co hs hnorm] at hok
        unfold determineCore at hok
        split at hok
        · split at hok
          · rcases hok with ⟨rfl⟩
            simp at hx
          · simp at hok
        · split at hok
          · rename_i h2
            exact h2
          · split at hok
            · rcases hok with ⟨rfl⟩
              simp at hx
            · split at hok
              · rcases hok with ⟨rfl⟩
                simp at hx
              · split at hok
                · rcases hok with ⟨rfl⟩
                  simp at hx
                · simp at hok
    · rintro ⟨h1, h2, h3⟩
      have hs : s ≠ "" := by
        intro hse
        rw [hse] at hnorm
        have hnn : n = "" := by
          have h0 : normalize_selector "" = .ok "" := by rfl
          rw [h0] at hnorm
          exact (Except.ok.injEq _ _).mp hnorm.symm
        rw [hnn] at h1
        exact absurd h1 (by decide)
      refine ⟨{ raw_selector := n, selector_type := .TAG,
                processed_selector := pyLower n, is_valid := true,
                validation_message := "", specificity := (0, 0, 1) }, ?_, rfl⟩
      rw [determine_eq_core xo co hs hnorm]
      unfold determineCore
      have hns := tag_no_slash n h1
      rw [if_neg (by simp [hns.1, hns.2]), if_pos ⟨h1, h2, h3⟩]

/-- Witness for `claim7_tag_precedence` with the concrete grammar-checker
models, at `"div"` and `"div.x"`. -/
theorem claim7_witness :
    determine_selector_type xpathCheckModel cssCheckModel "div" =
        .ok { raw_selector := "div", selector_type := .TAG,
              processed_selector := "div", is_valid := true,
              validation_message := "", specificity := (0, 0, 1) } ∧
      determine_selector_type xpathCheckModel cssCheckModel "div.x" =
        .ok { raw_selector := "div.x", selector_type := .CSS,
              processed_selector := "div.x", is_valid := true,
              validation_message := "", specificity := (0, 1, 1) } ∧
      ((∃ r, determine_selector_type xpathCheckModel cssCheckModel "div" = .ok r ∧
          r.selector_type = SelectorType.TAG) ↔
        (HTML_TAGS.contains (pyLower "div") = true ∧ pyContains "div" '.' = false ∧
          pyContains "div" '#' = false)) := by
  refine ⟨(claim7_tag_precedence xpathCheckModel cssCheckModel).1,
    (claim7_tag_precedence xpathCheckModel cssCheckModel).2.1 (by rfl),
    (claim7_tag_precedence xpathCheckModel cssCheckModel).2.2 "div" "div" (by rfl)⟩

/-- Witness for `claim9_all_valid_iff` on the concrete batch
`[("a", "div"), ("c", " ")]`. -/
theorem claim9_witness :
    (true = true ↔ ∀ p ∈ [("a", FieldRecord.mk "tag name" "div" true "" (0, 0, 1)),
        ("c", emptyRecord)], (p.2).is_valid = true) := by
  exact claim9_all_valid_iff xpathCheckModel cssCheckModel
    [("a", "div"), ("c", " ")] _ _ (by rfl)

/-- A string whose first character is a slash never lower-cases into the
HTML-tag allow-list. -/
theorem tag_head_slash_not_contains {n : String} (h : n.toList.head? = some '/') :
    HTML_TAGS.contains (pyLower n) = false := by
  by_contra hx
  rw [Bool.not_eq_false] at hx
  have hmem : pyLower n ∈ HTML_TAGS := by simpa using hx
  have hall : ∀ x ∈ HTML_TAGS, x.toList.headD ' ' ≠ '/' := by decide
  rcases hnl : n.toList with _ | ⟨c, cs⟩
  · rw [hnl] at h
    simp at h
  · rw [hnl] at h
    have hc : c = '/' := by simpa using h
    have hhead : (pyLower n).toList.headD ' ' = '/' := by
      show (n.toList.map Char.toLower).headD ' ' = '/'
      rw [hnl, List.map_cons, List.headD_cons, hc]
      decide
    exact hall _ hmem hhead

/-- Without a `#` the id regex finds nothing. -/
theorem findId_eq_empty {l : List Char} (h : '#' ∉ l) : findId l = "" := by
  induction l with
  | nil => rfl
  | cons c cs ih =>
    have hc : c ≠ '#' := fun hcc => h (by rw [hcc]; exact List.mem_cons_self '#' cs)
    have hcs : '#' ∉ cs := fun hx => h (List.mem_cons_of_mem c hx)
    simp [findId, hc, ih hcs]

/-- Without a `.` the class regex finds nothing, regardless of fuel. -/
theorem findClassesF_eq_nil {fuel : Nat} {l : List Char} (h : '.' ∉ l) :
    findClassesF fuel l = [] := by
  induction fuel generalizing l with
  | zero => cases l <;> rfl
  | succ fuel ih =>
    rcases l with _ | ⟨c, cs⟩
    · rfl
    · have hc : c ≠ '.' := fun hcc => h (by rw [hcc]; exact List.mem_cons_self '.' cs)
      have hcs : '.' ∉ cs := fun hx => h (List.mem_cons_of_mem c hx)
      simp [findClassesF, hc, ih hcs]

/-- Without a `.` the class regex finds nothing. -/
theorem findClasses_eq_nil {l : List Char} (h : '.' ∉ l) : findClasses l = [] :=
  findClassesF_eq_nil h

/-- C3 as amended.  On the XPath-shaped path, normalization is idempotent
for inputs containing at most one `'['`: the normalized form of such a
selector is a fixed point of `normalize_selector`.  (With two or more
`'['` the claim fails, see the counterexample; the CSS path is not
idempotent either.) -/
theorem claim3_amended (s n : String)
    (h1 : pyStartsWith s "/" = true)
    (hcount : s.toList.count '[' ≤ 1)
    (h3 : normalize_selector s = .ok n) :
    normalize_selector n = .ok n := by
  have h1' : (['/'] : List Char).isPrefixOf s.toList = true := h1
  obtain ⟨t, ht⟩ := isPrefixOf_one h1'
  have hcoll : collapse s.toList = '/' :: ccore t := by
    rw [ht]
    exact collapse_cons_nonspace t (by decide)
  have hpfx : (['/', '/'] : List Char).isPrefixOf (collapse s.toList) = true ∨
      (['/'] : List Char).isPrefixOf (collapse s.toList) = true := by
    right
    rw [hcoll]
    simp [List.isPrefixOf]
  have hnl : normalizeSelectorL s.toList = .ok (normXpath (collapse s.toList)) := by
    unfold normalizeSelectorL
    rw [if_neg (by rw [ht]; simp), if_pos hpfx]
  have hn : n.toList = normXpath (collapse s.toList) := by
    unfold normalize_selector at h3
    rw [hnl] at h3
    have h4 : (⟨normXpath (collapse s.toList)⟩ : String) = n := by
      simpa [Except.map] using h3
    rw [← h4]
    rfl
  have hcanonc : Canon (collapse s.toList) := collapse_canon _
  have hheadc : (collapse s.toList).head? = some '/' := by
    rw [hcoll]
    rfl
  have hcountc : (collapse s.toList).count '[' ≤ 1 := by
    rw [count_collapse (by decide) s.toList]
    exact hcount
  obtain ⟨hcanonm, hheadm, hfix⟩ :=
    normXpath_fix hcanonc hheadc (by decide) (by decide) hcountc
  have hnh : n.toList.head? = some '/' := by
    rw [hn]
    exact hheadm
  have hne : n.toList ≠ [] := by
    intro hx
    rw [hx] at hnh
    simp at hnh
  have hcoll2 : collapse n.toList = n.toList := by
    refine collapse_eq_self ?_ ?_
    · rw [hn]
      exact hcanonm
    · rw [hnh]
      simp
  have hpfx2 : (['/', '/'] : List Char).isPrefixOf (collapse n.toList) = true ∨
      (['/'] : List Char).isPrefixOf (collapse n.toList) = true := by
    right
    rw [hcoll2]
    rcases hml : n.toList with _ | ⟨x, ts⟩
    · exact absurd hml hne
    · rw [hml] at hnh
      have hx : x = '/' := by simpa using hnh
      simp [List.isPrefixOf, hx]
  have hnl2 : normalizeSelectorL n.toList = .ok n.toList := by
    unfold normalizeSelectorL
    rw [if_neg hne, if_pos hpfx2, hcoll2, hn, hfix, ← hn]
  unfold normalize_selector
  rw [hnl2]
  rfl

/-- Witness for `claim3_amended` at the single-bracket XPath selector
`"/a [x]"`, whose normalized form `"/a[x]"` is a fixed point. -/
theorem claim3_amended_witness : normalize_selector "/a[x]" = .ok "/a[x]" := by
  exact claim3_amended "/a [x]" "/a[x]" (by rfl) (by decide) (by rfl)

/-- C10 as amended.  For a non-empty selector beginning with a single `/`
(not `//`, hence also not `(//`), the classifier never returns kind
`XPath`; and when the selector furthermore contains no `#` and no `.` and
the CSS grammar check rejects its normalized form, the call fails with
`InvalidSelector` whose message begins with `"Invalid CSS selector"`.
(Without the `#`/`.` restriction the ID or Class branch can still succeed,
see the counterexample.) -/
theorem claim10_amended (xo co : String → Except String Unit) (s : String)
    (h1 : pyStartsWith s "/" = true) (h2 : pyStartsWith s "//" = false) :
    (∀ r, determine_selector_type xo co s = .ok r →
      r.selector_type ≠ SelectorType.XPATH) ∧
    (∀ n d, normalize_selector s = .ok n → pyContains s '#' = false →
      pyContains s '.' = false → co n = .error d →
      determine_selector_type xo co s =
        .error (.invalidSelector ("Invalid CSS selector: " ++ d))) := by
  have hs : s ≠ "" := by
    intro hse
    rw [hse] at h1
    exact absurd h1 (by decide)
  have h1' : (['/'] : List Char).isPrefixOf s.toList = true := h1
  obtain ⟨t, ht⟩ := isPrefixOf_one h1'
  have hth : t.head? ≠ some '/' := by
    intro hx
    rcases t with _ | ⟨y, ys⟩
    · simp at hx
    · have hy : y = '/' := by simpa using hx
      have h2' : pyStartsWith s "//" = true := by
        show (['/', '/'] : List Char).isPrefixOf s.toList = true
        rw [ht, hy]
        simp [List.isPrefixOf]
      rw [h2'] at h2
      exact Bool.noConfusion h2
  have hcoll : collapse s.toList = '/' :: ccore t := by
    rw [ht]
    exact collapse_cons_nonspace t (by decide)
  have hcc : (ccore t).head? ≠ some '/' := ccore_head_ne (by decide) hth
  obtain ⟨v, hnx, hv⟩ := normXpath_shape hcc
  have hnl : normalizeSelectorL s.toList = .ok ('/' :: v) := by
    unfold normalizeSelectorL
    rw [if_neg (by rw [ht]; simp)]
    rw [if_pos (Or.inr (by rw [hcoll]; simp [List.isPrefixOf]))]
    rw [hcoll, hnx]
  have hnorm : normalize_selector s = .ok ⟨'/' :: v⟩ := by
    unfold normalize_selector
    rw [hnl]
    rfl
  have hN1 : pyStartsWith (⟨'/' :: v⟩ : String) "//" = false := by
    show (['/', '/'] : List Char).isPrefixOf ('/' :: v) = false
    rcases hvv : v with _ | ⟨y, ys⟩
    · simp [List.isPrefixOf]
    · rw [hvv] at hv
      have hy : y ≠ '/' := by simpa using hv
      simp [List.isPrefixOf]
      exact fun hx => hy hx.symm
  have hN2 : pyStartsWith (⟨'/' :: v⟩ : String) "(//" = false := by
    show (['(', '/', '/'] : List Char).isPrefixOf ('/' :: v) = false
    simp [List.isPrefixOf]
  constructor
  · intro r hok hx
    rw [determine_eq_core xo co hs hnorm] at hok
    unfold determineCore at hok
    rw [if_neg (by simp [hN1, hN2])] at hok
    split at hok
    · rcases hok with ⟨rfl⟩
      simp at hx
    · split at hok
      · rcases hok with ⟨rfl⟩
        simp at hx
      · split at hok
        · rcases hok with ⟨rfl⟩
          simp at hx
        · split at hok
          · rcases hok with ⟨rfl⟩
            simp at hx
          · simp at hok
  · intro n d hnorm2 hhash hdot hcoerr
    rw [hnorm] at hnorm2
    have hn : (⟨'/' :: v⟩ : String) = n := (Except.ok.injEq _ _).mp hnorm2
    subst hn
    have hmemhash : '#' ∉ ('/' :: v : List Char) := by
      intro hx
      have hx2 : '#' ∈ normXpath ('/' :: ccore t) := by
        rw [hnx]
        exact hx
      rcases mem_normXpath hx2 with hm1 | hm2
      · have hx3 : '#' ∈ collapse s.toList := by
          rw [hcoll]
          exact hm1
        rcases mem_collapse hx3 with hsp | hmem
        · exact absurd hsp (by decide)
        · have hcon : pyContains s '#' = true := by
            show s.toList.contains '#' = true
            simpa using hmem
          rw [hcon] at hhash
          exact Bool.noConfusion hhash
      · rcases hm2 with h' | h' <;> exact absurd h' (by decide)
    have hmemdot : '.' ∉ ('/' :: v : List Char) := by
      intro hx
      have hx2 : '.' ∈ normXpath ('/' :: ccore t) := by
        rw [hnx]
        exact hx
      rcases mem_normXpath hx2 with hm1 | hm2
      · have hx3 : '.' ∈ collapse s.toList := by
          rw [hcoll]
          exact hm1
        rcases mem_collapse hx3 with hsp | hmem
        · exact absurd hsp (by decide)
        · have hcon : pyContains s '.' = true := by
            show s.toList.contains '.' = true
            simpa using hmem
          rw [hcon] at hdot
          exact Bool.noConfusion hdot
      · rcases hm2 with h' | h' <;> exact absurd h' (by decide)
    rw [determine_eq_core xo co hs hnorm]
    unfold determineCore
    rw [if_neg (by simp [hN1, hN2])]
    have htagf : HTML_TAGS.contains (pyLower ⟨'/' :: v⟩) = false :=
      tag_head_slash_not_contains (by rfl)
    have htagf2 : pyLower (⟨'/' :: v⟩ : String) ∉ HTML_TAGS := by
      simpa using htagf
    rw [if_neg (by simp [htagf2])]
    have hid : findId ('/' :: v) = "" := findId_eq_empty hmemhash
    rw [if_neg (by simp [extract_selector_parts, hid])]
    have hcls : findClasses ('/' :: v) = [] := findClasses_eq_nil hmemdot
    rw [if_neg (by simp [extract_selector_parts, hcls])]
    rw [hcoerr]

/-- Witness for `claim10_amended` at the concrete input `"/html/body"` with
the concrete grammar-checker models. -/
theorem claim10_amended_witness :
    determine_selector_type xpathCheckModel cssCheckModel "/html/body" =
      .error (.invalidSelector "Invalid CSS selector: parse error") := by
  exact (claim10_amended xpathCheckModel cssCheckModel "/html/body"
    (by rfl) (by rfl)).2 "/html/body" "parse error" (by rfl) (by rfl) (by rfl)
    (by rfl)

end SSP
